import Mathlib

/-!
Verification of the yeet control plane against its specification.

This file gives a shallow embedding of the parts of the repository that the
checked properties talk about:

* `Yeet.SecretStore` embeds `yeet-server/src/secret_store.rs`: an in-memory
  store of encrypted secrets with a per-secret host ACL.  Rust `HashMap`s are
  modelled as association lists with overwrite-on-insert semantics; byte
  vectors as `List Nat`.  The `age` encryption primitives are kept abstract:
  decryption under the store identity is a parameter
  `dec : List Nat → Option (List Nat)` (`none` models `age::DecryptError`) and
  re-encryption for the recipient is `enc : List Nat → Option (List Nat)`
  (`none` models `age::EncryptError`).

* `Yeet.PolicyStore` embeds `yeet-api/src/auth.rs`: tag-based policies keyed
  by `(identity, action)`.  Tags (UUIDs) are modelled as `Nat`, tag sets as
  lists with membership semantics.

* `Yeet.Agent` embeds the update procedure of `yeet-agent/src/agent.rs`
  (`update`, `get_secrets`, `create_generation`, `remove_all_dirs_unless`)
  as a function on an explicit filesystem state.
-/

namespace Yeet

/-- Lookup in an association list; models `HashMap::get`. -/
def mapLookup {α β : Type} [DecidableEq α] : List (α × β) → α → Option β
  | [], _ => none
  | (k, v) :: rest, key => if key = k then some v else mapLookup rest key

/-- Insert with overwrite; models `HashMap::insert`. -/
def mapInsert {α β : Type} [DecidableEq α] (m : List (α × β)) (k : α) (v : β) :
    List (α × β) :=
  (k, v) :: m.filter (fun p => p.1 ≠ k)

/-- Remove a key; models `HashMap::remove`. -/
def mapRemove {α β : Type} [DecidableEq α] (m : List (α × β)) (k : α) :
    List (α × β) :=
  m.filter (fun p => p.1 ≠ k)

/-! ## Secret store (`yeet-server/src/secret_store.rs`) -/

/-- Errors of the secret store (`SecretStoreError`). -/
inductive SecretStoreError : Type
  | decryptionError
  | encryptError
deriving DecidableEq, Repr

/-- The secret store: `secrets` maps a secret name to its ciphertext, `acl`
maps a secret name to the list of host names allowed to read it. -/
structure SecretStore : Type where
  secrets : List (String × List Nat)
  acl : List (String × List String)
deriving DecidableEq, Repr

/-- `SecretStore::new`. -/
def SecretStore.new : SecretStore := ⟨[], []⟩

/-- `SecretStore::add_secret`.  The ciphertext is test-decrypted with the
store key; failure returns `DecryptionError` and leaves the store unchanged,
success inserts (overwriting by name).  The mutable receiver is modelled by
returning the new store together with the optional error. -/
def SecretStore.add_secret (st : SecretStore) (secret_name : String)
    (secret : List Nat) (dec : List Nat → Option (List Nat)) :
    SecretStore × Option SecretStoreError :=
  match dec secret with
  | none => (st, some .decryptionError)
  | some _ => ({ st with secrets := mapInsert st.secrets secret_name secret }, none)

/-- `SecretStore::get_secret_for`.  Returns `Ok(None)` unless the ACL entry
for the secret exists and contains the host; then returns `Ok(None)` if the
secret is absent; otherwise decrypts with the store key and re-encrypts for
the recipient, propagating crypto errors. -/
def SecretStore.get_secret_for (st : SecretStore) (secret : String)
    (dec : List Nat → Option (List Nat)) (host : String)
    (enc : List Nat → Option (List Nat)) :
    Except SecretStoreError (Option (List Nat)) :=
  match mapLookup st.acl secret with
  | none => .ok none
  | some aclHosts =>
    if host ∈ aclHosts then
      match mapLookup st.secrets secret with
      | none => .ok none
      | some ciphertext =>
        match dec ciphertext with
        | none => .error .decryptionError
        | some decrypted =>
          match enc decrypted with
          | none => .error .encryptError
          | some reencrypted => .ok (some reencrypted)
    else .ok none

/-- `SecretStore::add_access_for`: `acl.entry(secret).or_default().push(host)`. -/
def SecretStore.add_access_for (st : SecretStore) (secret host : String) :
    SecretStore :=
  let cur := (mapLookup st.acl secret).getD []
  { st with acl := mapInsert st.acl secret (cur ++ [host]) }

/-- `SecretStore::remove_access_for`:
`acl.entry(secret).or_default().retain(|h| h != &host)`. -/
def SecretStore.remove_access_for (st : SecretStore) (secret host : String) :
    SecretStore :=
  let cur := (mapLookup st.acl secret).getD []
  { st with acl := mapInsert st.acl secret (cur.filter (fun h => h ≠ host)) }

/-- `SecretStore::rename_secret`: move the secret entry from `current` to
`new` (if present), then move the ACL entry from `current` to `new`
(if present).  Each move overwrites whatever was stored under `new`. -/
def SecretStore.rename_secret (st : SecretStore) (current new : String) :
    SecretStore :=
  let st1 :=
    match mapLookup st.secrets current with
    | some v => { st with secrets := mapInsert (mapRemove st.secrets current) new v }
    | none => st
  match mapLookup st1.acl current with
  | some a => { st1 with acl := mapInsert (mapRemove st1.acl current) new a }
  | none => st1

/-- `SecretStore::remove_secret`. -/
def SecretStore.remove_secret (st : SecretStore) (secret : String) :
    SecretStore :=
  { st with secrets := mapRemove st.secrets secret, acl := mapRemove st.acl secret }

/-! ## Policy store (`yeet-api/src/auth.rs`) -/

namespace Auth

/-- `auth::Host`: administrative actions on hosts. -/
inductive Host : Type
  | rename | remove | update | accept | attach | detachPermission
deriving DecidableEq, Repr

/-- `auth::Settings`. -/
inductive Settings : Type
  | detachGlobal
deriving DecidableEq, Repr

/-- `auth::Secret`: administrative actions on secrets. -/
inductive Secret : Type
  | createOrUpdate | rename | remove | acl | listSecrets
deriving DecidableEq, Repr

/-- `auth::Status`. -/
inductive Status : Type
  | listHosts | listHostnameByKey
deriving DecidableEq, Repr

/-- `auth::Action`: the closed union of all actions. -/
inductive Action : Type
  | host (a : Host)
  | settings (a : Settings)
  | secret (a : Secret)
  | status (a : Status)
deriving DecidableEq, Repr

end Auth

/-- Tags are `uuid::Uuid` values; modelled as `Nat`.  A `TagSet` (Rust
`HashSet<Tag>`) is modelled as a list used up to membership. -/
abbrev Tag : Type := Nat

/-- `auth::PolicyStore`: a set of known tags and a map
`(identity, action) → tag set`. -/
structure PolicyStore (Identity : Type) [DecidableEq Identity] : Type where
  tags : List Tag
  policies : List ((Identity × Auth.Action) × List Tag)

/-- `PolicyStore::set_policy`: overwrite the policy for `(owner, action)`. -/
def PolicyStore.set_policy {Identity : Type} [DecidableEq Identity]
    (st : PolicyStore Identity) (owner : Identity) (action : Auth.Action)
    (tags : List Tag) : PolicyStore Identity :=
  { st with policies := mapInsert st.policies (owner, action) tags }

/-- `PolicyStore::get_tags`: the stored tag set for `(owner, action)`, or the
empty set when no policy exists. -/
def PolicyStore.get_tags {Identity : Type} [DecidableEq Identity]
    (st : PolicyStore Identity) (owner : Identity) (action : Auth.Action) :
    List Tag :=
  (mapLookup st.policies (owner, action)).getD []

/-- `PolicyStore::check_permission`:
`get_tags(owner, action).intersection(tags).count() > 0`. -/
def PolicyStore.check_permission {Identity : Type} [DecidableEq Identity]
    (st : PolicyStore Identity) (owner : Identity) (action : Auth.Action)
    (tags : List Tag) : Bool :=
  decide ((st.get_tags owner action ∩ tags).length > 0)

/-! ## Agent update procedure (`yeet-agent/src/agent.rs`) -/

namespace Agent

/-- `api::Secret` (`yeet-api/src/secret.rs`): one declared secret of the
artifact manifest `yeet-secrets.json`.  `name` is the file name, `owner` and
`group` are independent fields. -/
structure Secret : Type where
  name : String
  path : String
  mode : String
  owner : String
  group : String
  symlink : Bool
deriving DecidableEq, Repr

/-- The digits of a character list in base `base` (10 or 8), or `none` when
a character is out of range. -/
def baseDigits (base : Nat) : List Char → Option (List Nat)
  | [] => some []
  | c :: cs =>
    if c.toNat < 48 ∨ 48 + base ≤ c.toNat then none
    else
      match baseDigits base cs with
      | some ds => some ((c.toNat - 48) :: ds)
      | none => none

/-- Rust `str::parse::<u32>` on the digit strings it accepts: nonempty,
decimal digits only, value below `2^32`. -/
def parseU32 (s : String) : Option Nat :=
  match s.toList with
  | [] => none
  | cs =>
    match baseDigits 10 cs with
    | none => none
    | some ds =>
      let n := ds.foldl (fun acc d => acc * 10 + d) 0
      if n < 2 ^ 32 then some n else none

/-- Rust `u32::from_str_radix(s, 8)` on plain digit strings: nonempty, octal
digits only, value below `2^32`. -/
def parseOctalU32 (s : String) : Option Nat :=
  match s.toList with
  | [] => none
  | cs =>
    match baseDigits 8 cs with
    | none => none
    | some ds =>
      let n := ds.foldl (fun acc d => acc * 8 + d) 0
      if n < 2 ^ 32 then some n else none

/-- Split a character list at `/` separators. -/
def splitSlash : List Char → List (List Char)
  | [] => [[]]
  | c :: cs =>
    let rest := splitSlash cs
    if c = '/' then [] :: rest
    else
      match rest with
      | [] => [[c]]
      | h :: t => (c :: h) :: t

/-- `Path::file_name` for the paths used as secret names: the last
`/`-separated component after dropping empty and `.` components; `none` for
an empty path or one ending in a parent-directory component. -/
def pathFileName (s : String) : Option String :=
  let comps := (splitSlash s.toList).map (fun cs => String.mk cs)
  match (comps.filter (fun c => c ≠ "" ∧ c ≠ ".")).getLast? with
  | some c => if c = ".." then none else some c
  | none => none

/-- A secret file materialized inside a generation directory: its name,
permission bits, the uid and gid passed to `chown`, and its contents. -/
structure SecretFile : Type where
  fileName : String
  mode : Nat
  uid : Nat
  gid : Nat
  content : List Nat
deriving DecidableEq, Repr

/-- Failure modes of the update procedure that the embedding distinguishes. -/
inductive AgentErr : Type
  | downloadFailed
  | secretNotFound
  | invalidSecretName
  | fileExists
  | invalidMode
  | invalidOwner
  | activationFailed
deriving DecidableEq, Repr

/-- The per-secret loop body of `create_generation`: compute the file-name
component of the declared name, fail if a file of that name already exists,
parse the octal mode, then `chown(file, Some(secret.owner.parse()?),
Some(secret.owner.parse()?))` — the source passes `owner` for both the uid
and the gid argument.  `written` holds the files already present in the
generation directory. -/
def create_generation_files (written : List SecretFile) :
    List (Secret × List Nat) → Except AgentErr (List SecretFile)
  | [] => .ok written
  | (secret, content) :: rest =>
    match pathFileName secret.name with
    | none => .error .invalidSecretName
    | some fname =>
      if (written.map SecretFile.fileName).contains fname then
        .error .fileExists
      else
        match parseOctalU32 secret.mode with
        | none => .error .invalidMode
        | some m =>
          match parseU32 secret.owner with
          | none => .error .invalidOwner
          | some uid =>
            match parseU32 secret.owner with
            | none => .error .invalidOwner
            | some gid =>
              create_generation_files
                (written ++ [⟨fname, m, uid, gid, content⟩]) rest

/-- `create_generation`: materialize the fetched secrets into a generation
directory that currently holds `existing` files.  Returns the resulting file
list, or the first error. -/
def create_generation (existing : List SecretFile)
    (secrets : List (Secret × List Nat)) : Except AgentErr (List SecretFile) :=
  create_generation_files existing secrets

/-- The agent-visible state: the active system version, the target of the
`/etc/yeet/secret` symlink (identified by the generation-directory name
under `/etc/yeet/secret.d`, which is how every link written by the agent is
formed), and the generation directories with their files. -/
structure AgentFS : Type where
  activeVersion : String
  secretLink : Option String
  dirs : List (String × List SecretFile)
deriving DecidableEq, Repr

/-- The generation number computed by `get_secrets`: parse the file name of
the current symlink target as `u32` and add one; default `0` when the link
is absent or the name does not parse. -/
def nextGeneration (link : Option String) : Nat :=
  match link with
  | some name => ((parseU32 name).map (fun i => i + 1)).getD 0
  | none => 0

/-- Fetch every declared secret from the coordinator, in manifest order;
`none` models the bail-out when any secret is missing (a transport failure
aborts at the same point with the same filesystem effect). -/
def fetchSecrets (defs : List (String × Secret))
    (fetch : String → Option (List Nat)) : Option (List (Secret × List Nat)) :=
  defs.mapM (fun p => (fetch p.1).map (fun c => (p.2, c)))

/-- `get_secrets`: if no `yeet-secrets.json` exists, return with no change;
otherwise fetch all secrets (aborting before any write if one is missing),
stage the next generation directory, on staging failure remove that
directory and propagate the error, and on success flip the secret symlink to
the new generation. -/
def get_secrets (fs : AgentFS) (manifest : Option (List (String × Secret)))
    (fetch : String → Option (List Nat)) : AgentFS × Option AgentErr :=
  match manifest with
  | none => (fs, none)
  | some defs =>
    match fetchSecrets defs fetch with
    | none => (fs, some .secretNotFound)
    | some secrets =>
      let genName := toString (nextGeneration fs.secretLink)
      let existing := (mapLookup fs.dirs genName).getD []
      match create_generation existing secrets with
      | .error e => ({ fs with dirs := mapRemove fs.dirs genName }, some e)
      | .ok files =>
        ({ fs with dirs := mapInsert fs.dirs genName files,
                   secretLink := some genName }, none)

/-- Modelled from the spec: the environment of one `update` run.  The
download (`nix-store --realise`) either succeeds or fails (`downloadOk`).
Activation (§4.F: set the system profile, run the activation entry point)
either results in the requested store path being the active version as read
back by `get_active_version` (`actSwitched = true`) or leaves the active
version unchanged; independently `activate` may return an error
(`actErr`).  `crate::version::get_active_version` itself is outside the
embedded sources and is modelled, per §4.E step 7, as the observation of
that outcome. -/
structure UpdateRun : Type where
  target : String
  manifest : Option (List (String × Secret))
  fetch : String → Option (List Nat)
  downloadOk : Bool
  actSwitched : Bool
  actErr : Bool

/-- `update`: download, record the pre-update symlink, stage secrets
(`get_secrets`), activate, and verify by reading the active version.
On mismatch, restore the symlink to the pre-update target when one existed,
delete the staged generation (the post-staging symlink target), and surface
the activation error.  On match, keep only the post-staging symlink target
among the generation directories (`remove_all_dirs_unless`). -/
def update (fs : AgentFS) (run : UpdateRun) : AgentFS × Option AgentErr :=
  if run.downloadOk = false then (fs, some .downloadFailed)
  else
    let current_gen := fs.secretLink
    match get_secrets fs run.manifest run.fetch with
    | (fs1, some e) => (fs1, some e)
    | (fs1, none) =>
      let next_gen := fs1.secretLink
      let fs2 := { fs1 with
        activeVersion := if run.actSwitched then run.target else fs1.activeVersion }
      if fs2.activeVersion ≠ run.target then
        let fs3 :=
          match current_gen with
          | some cg => { fs2 with secretLink := some cg }
          | none => fs2
        let fs4 :=
          match next_gen with
          | some ng => { fs3 with dirs := mapRemove fs3.dirs ng }
          | none => fs3
        (fs4, if run.actErr then some .activationFailed else none)
      else
        let fs5 :=
          match next_gen with
          | some ng => { fs2 with dirs := fs2.dirs.filter (fun d => d.1 = ng) }
          | none => fs2
        (fs5, none)

end Agent

/-! ## Concrete fixtures used by counterexamples and witnesses -/

/-- A manifest entry declaring owner `1000` and group `2000`. -/
def dbSecretDef : Agent.Secret :=
  ⟨"db", "/run/db", "400", "1000", "2000", false⟩

/-- Coordinator answer used by the agent fixtures: the secret `db` has
ciphertext `[1, 2]`, everything else is missing. -/
def dbFetch : String → Option (List Nat) :=
  fun n => if n = "db" then some [1, 2] else none

/-- Initial agent state with no secret symlink and no generation
directories. -/
def emptyAgentFS : Agent.AgentFS := ⟨"old", none, []⟩

/-- An update run whose artifact declares the secret `db` and whose
activation fails to make the requested path active. -/
def failingStagedRun : Agent.UpdateRun :=
  ⟨"new", some [("db", dbSecretDef)], dbFetch, true, false, true⟩

/-- Initial agent state whose symlink points at generation `3`. -/
def linkedAgentFS : Agent.AgentFS := ⟨"old", some "3", [("3", [])]⟩

/-- An update run with no secrets manifest and a failing activation. -/
def failingPlainRun : Agent.UpdateRun :=
  ⟨"new", none, dbFetch, true, false, true⟩

/-- Initial agent state with no symlink but two leftover generation
directories. -/
def garbageAgentFS : Agent.AgentFS := ⟨"old", none, [("0", []), ("1", [])]⟩

/-- An update run with no secrets manifest and a succeeding activation. -/
def plainRun : Agent.UpdateRun := ⟨"new", none, dbFetch, true, true, false⟩

/-- An update run whose artifact declares the secret `db` and whose
activation succeeds. -/
def stagedRun : Agent.UpdateRun :=
  ⟨"new", some [("db", dbSecretDef)], dbFetch, true, true, false⟩

/-- Decryption oracle of the store-fixture identity: only the ciphertext
`[5]` decrypts (to `[7]`). -/
def fixtureDec : List Nat → Option (List Nat) :=
  fun ct => if ct = [5] then some [7] else none

/-- Re-encryption oracle for the fixture recipient. -/
def fixtureEnc : List Nat → Option (List Nat) :=
  fun pt => some (9 :: pt)

/-- A store holding secret `db` (ciphertext `[5]`) readable by host `h1`. -/
def dbStore : SecretStore := ⟨[("db", [5])], [("db", ["h1"])]⟩

/-! ## Helper lemmas on the association-list operations -/

theorem mapLookup_filter_ne {α β : Type} [DecidableEq α]
    (m : List (α × β)) (k key : α) (hne : key ≠ k) :
    mapLookup (m.filter (fun p => p.1 ≠ k)) key = mapLookup m key := by
  induction m with
  | nil => rfl
  | cons p rest ih =>
    obtain ⟨k1, v1⟩ := p
    by_cases hp : k1 = k
    · rw [List.filter_cons]
      have hf : (decide ((k1, v1).1 ≠ k)) = false := by simp [hp]
      rw [hf]
      simp only [Bool.false_eq_true, if_false, mapLookup]
      rw [ih, if_neg (fun h : key = k1 => hne (hp ▸ h))]
    · rw [List.filter_cons]
      have hf : (decide ((k1, v1).1 ≠ k)) = true := by simp [hp]
      rw [hf, if_pos rfl]
      simp only [mapLookup]
      by_cases hk : key = k1
      · simp [hk]
      · simp only [if_neg hk]
        exact ih

theorem mapLookup_insert_self {α β : Type} [DecidableEq α]
    (m : List (α × β)) (k : α) (v : β) :
    mapLookup (mapInsert m k v) k = some v := by
  simp [mapInsert, mapLookup]

theorem mapLookup_insert_ne {α β : Type} [DecidableEq α]
    (m : List (α × β)) (k key : α) (v : β) (hne : key ≠ k) :
    mapLookup (mapInsert m k v) key = mapLookup m key := by
  simp only [mapInsert, mapLookup, if_neg hne]
  exact mapLookup_filter_ne m k key hne

theorem mapLookup_remove_ne {α β : Type} [DecidableEq α]
    (m : List (α × β)) (k key : α) (hne : key ≠ k) :
    mapLookup (mapRemove m k) key = mapLookup m key :=
  mapLookup_filter_ne m k key hne

theorem mapLookup_remove_self {α β : Type} [DecidableEq α]
    (m : List (α × β)) (k : α) :
    mapLookup (mapRemove m k) k = none := by
  induction m with
  | nil => rfl
  | cons p rest ih =>
    obtain ⟨k1, v1⟩ := p
    by_cases hp : k1 = k
    · rw [mapRemove, List.filter_cons]
      have hf : (decide ((k1, v1).1 ≠ k)) = false := by simp [hp]
      rw [hf]
      simpa only [Bool.false_eq_true, if_false] using ih
    · rw [mapRemove, List.filter_cons]
      have hf : (decide ((k1, v1).1 ≠ k)) = true := by simp [hp]
      rw [hf, if_pos rfl]
      simp only [mapLookup, if_neg (fun h : k = k1 => hp h.symm)]
      exact ih

theorem mapInsert_filter_self {α β : Type} [DecidableEq α]
    (m : List (α × β)) (k : α) (v : β) :
    (mapInsert m k v).filter (fun p => p.1 = k) = [(k, v)] := by
  rw [mapInsert, List.filter_cons]
  have hf : (decide ((k, v).1 = k)) = true := by simp
  rw [hf, if_pos rfl]
  have : (m.filter (fun p => p.1 ≠ k)).filter (fun p => p.1 = k) = [] := by
    rw [List.filter_eq_nil_iff]
    intro p hp
    have := List.of_mem_filter hp
    simp at this
    simp [this]
  rw [this]

/-! ## Secret-store claims -/

/-- Claim C1: for every store state, secret name, host, and recipient, if
`get_secret_for` returns `Ok(Some ciphertext)` then the host is in the ACL
entry of the secret and the secret is present in the stored secrets map. -/
theorem get_secret_for_some_implies_acl_and_present
    (st : SecretStore) (s host : String)
    (dec enc : List Nat → Option (List Nat)) (c : List Nat)
    (h : st.get_secret_for s dec host enc = .ok (some c)) :
    (∃ hosts, mapLookup st.acl s = some hosts ∧ host ∈ hosts) ∧
    (∃ ct, mapLookup st.secrets s = some ct) := by
  unfold SecretStore.get_secret_for at h
  split at h
  · exact absurd h (by simp)
  · rename_i hosts hacl
    split at h
    · rename_i hmem
      split at h
      · exact absurd h (by simp)
      · rename_i ct hsec
        exact ⟨⟨hosts, hacl, hmem⟩, ⟨ct, hsec⟩⟩
    · exact absurd h (by simp)

/-- Witness for C1 at a concrete store where the host is granted access. -/
theorem get_secret_for_some_implies_acl_and_present_witness :
    (∃ hosts, mapLookup dbStore.acl "db" = some hosts ∧ "h1" ∈ hosts) ∧
    (∃ ct, mapLookup dbStore.secrets "db" = some ct) :=
  get_secret_for_some_implies_acl_and_present dbStore "db" "h1"
    fixtureDec fixtureEnc [9, 7] rfl

/-- Claim C6: `get_secret_for` answers `Ok(None)` when the secret is missing
and `Ok(None)` when the secret exists but the host is not in its ACL — the
two causes produce the identical result. -/
theorem get_secret_for_missing_eq_denied
    (st : SecretStore) (s host : String)
    (dec enc : List Nat → Option (List Nat)) :
    (mapLookup st.secrets s = none →
      st.get_secret_for s dec host enc = .ok none) ∧
    ((∃ ct, mapLookup st.secrets s = some ct) →
      (∀ hosts, mapLookup st.acl s = some hosts → host ∉ hosts) →
      st.get_secret_for s dec host enc = .ok none) := by
  unfold SecretStore.get_secret_for
  cases hacl : mapLookup st.acl s with
  | none => exact ⟨fun _ => rfl, fun _ _ => rfl⟩
  | some hosts =>
    constructor
    · intro hmiss
      dsimp only
      by_cases hmem : host ∈ hosts
      · rw [if_pos hmem, hmiss]
      · rw [if_neg hmem]
    · intro _ hdeny
      dsimp only
      rw [if_neg (hdeny hosts rfl)]

/-- Witness for C6: a store missing the secret (host granted) and a store
holding the secret (host not granted) both answer `Ok(None)`. -/
theorem get_secret_for_missing_eq_denied_witness :
    SecretStore.get_secret_for ⟨[], [("db", ["h1"])]⟩ "db" fixtureDec "h1" fixtureEnc =
      .ok none ∧
    SecretStore.get_secret_for ⟨[("db", [5])], []⟩ "db" fixtureDec "h1" fixtureEnc =
      .ok none :=
  ⟨(get_secret_for_missing_eq_denied ⟨[], [("db", ["h1"])]⟩ "db" "h1"
      fixtureDec fixtureEnc).1 rfl,
   (get_secret_for_missing_eq_denied ⟨[("db", [5])], []⟩ "db" "h1"
      fixtureDec fixtureEnc).2 ⟨[5], rfl⟩ (fun _hosts h => Option.noConfusion h)⟩

/-- Claim C4: `add_secret` errors exactly when the ciphertext does not
decrypt under the store identity; on error the store is unchanged; on
success the ciphertext is stored under the name (overwriting any prior
secret of that name), all other secrets and the ACL are untouched. -/
theorem add_secret_spec (st : SecretStore) (name : String) (ct : List Nat)
    (dec : List Nat → Option (List Nat)) :
    ((st.add_secret name ct dec).2 ≠ none ↔ dec ct = none) ∧
    ((st.add_secret name ct dec).2 ≠ none → (st.add_secret name ct dec).1 = st) ∧
    ((st.add_secret name ct dec).2 = none →
      mapLookup (st.add_secret name ct dec).1.secrets name = some ct ∧
      (∀ m, m ≠ name →
        mapLookup (st.add_secret name ct dec).1.secrets m = mapLookup st.secrets m) ∧
      (st.add_secret name ct dec).1.acl = st.acl) := by
  unfold SecretStore.add_secret
  cases hdec : dec ct with
  | none =>
    refine ⟨by simp, fun _ => rfl, fun h => absurd h (by simp)⟩
  | some pt =>
    refine ⟨by simp, fun h => absurd rfl h, fun _ => ?_⟩
    exact ⟨mapLookup_insert_self st.secrets name ct,
      fun m hm => mapLookup_insert_ne st.secrets name m ct hm, rfl⟩

/-- Witness for C4: adding a decryptable ciphertext to the empty store
stores it under its name. -/
theorem add_secret_spec_witness :
    mapLookup (SecretStore.add_secret SecretStore.new "db" [5] fixtureDec).1.secrets
      "db" = some [5] :=
  ((add_secret_spec SecretStore.new "db" [5] fixtureDec).2.2 rfl).1

/-- Claim C8: after `remove_access_for(secret, host)` the revoked host gets
`Ok(None)` from `get_secret_for` on that secret, for every prior store state
(in particular however many duplicate grants `add_access_for` appended):
revocation removes every occurrence of the host from the ACL entry. -/
theorem remove_access_for_revokes (st : SecretStore) (secret host : String)
    (dec enc : List Nat → Option (List Nat)) :
    (st.remove_access_for secret host).get_secret_for secret dec host enc =
      .ok none := by
  have hmem : host ∉ ((mapLookup st.acl secret).getD []).filter
      (fun h => h ≠ host) := by
    intro hm
    have := List.of_mem_filter hm
    simp at this
  unfold SecretStore.remove_access_for SecretStore.get_secret_for
  simp only [mapLookup_insert_self]
  rw [if_neg hmem]

/-- Witness for C8 at a concrete store: after revoking `h1`, the lookup
answers `Ok(None)`. -/
theorem remove_access_for_revokes_witness :
    SecretStore.get_secret_for (SecretStore.remove_access_for dbStore "db" "h1")
      "db" fixtureDec "h1" fixtureEnc = .ok none :=
  remove_access_for_revokes dbStore "db" "h1" fixtureDec fixtureEnc

/-- Claim C9 as stated fails: when `old` exists as a secret but has no ACL
entry, `rename_secret` leaves the ACL already stored under `new` in place
instead of replacing it with the (absent) ACL moved from `old`. -/
theorem rename_secret_keeps_unrelated_target_acl :
    mapLookup (SecretStore.secrets ⟨[("old", [1])], [("new", ["h"])]⟩) "old" =
      some [1] ∧
    mapLookup (SecretStore.acl ⟨[("old", [1])], [("new", ["h"])]⟩) "old" = none ∧
    mapLookup (SecretStore.rename_secret ⟨[("old", [1])], [("new", ["h"])]⟩
      "old" "new").acl "new" = some ["h"] ∧
    some ["h"] ≠ (none : Option (List String)) := by
  refine ⟨rfl, rfl, rfl, by simp⟩

/-- Claim C9 amended: when secret `old` exists, `rename_secret(old, new)`
returns no error and raises no conflict; the secret stored under `new` is
silently replaced by the one moved from `old`; when `old` also has an ACL
entry the ACL stored under `new` is silently replaced by the one moved from
`old`; when `old` has no ACL entry the ACL previously stored under `new` is
left in place. -/
theorem rename_secret_spec (st : SecretStore) (old new : String) (v : List Nat)
    (hv : mapLookup st.secrets old = some v) :
    mapLookup (st.rename_secret old new).secrets new = some v ∧
    (old ≠ new → mapLookup (st.rename_secret old new).secrets old = none) ∧
    (∀ a, mapLookup st.acl old = some a →
      mapLookup (st.rename_secret old new).acl new = some a) ∧
    (mapLookup st.acl old = none →
      mapLookup (st.rename_secret old new).acl new = mapLookup st.acl new) := by
  unfold SecretStore.rename_secret
  rw [hv]
  dsimp only
  cases hacl : mapLookup st.acl old with
  | none =>
    dsimp only
    refine ⟨mapLookup_insert_self _ new v, fun hne => ?_, ?_, fun _ => rfl⟩
    · rw [mapLookup_insert_ne _ new old v hne, mapLookup_remove_self]
    · intro a ha
      exact Option.noConfusion ha
  | some a =>
    dsimp only
    refine ⟨mapLookup_insert_self _ new v, fun hne => ?_, ?_, fun h => ?_⟩
    · rw [mapLookup_insert_ne _ new old v hne, mapLookup_remove_self]
    · intro a2 ha2
      cases ha2
      exact mapLookup_insert_self _ new a
    · exact Option.noConfusion h

/-- Witness for C9 amended: renaming a secret that has both an entry and an
ACL moves both to the new name. -/
theorem rename_secret_spec_witness :
    mapLookup (SecretStore.rename_secret ⟨[("old", [1])], [("old", ["h"])]⟩
      "old" "new").secrets "new" = some [1] ∧
    mapLookup (SecretStore.rename_secret ⟨[("old", [1])], [("old", ["h"])]⟩
      "old" "new").acl "new" = some ["h"] :=
  ⟨(rename_secret_spec ⟨[("old", [1])], [("old", ["h"])]⟩ "old" "new" [1] rfl).1,
   (rename_secret_spec ⟨[("old", [1])], [("old", ["h"])]⟩ "old" "new" [1]
      rfl).2.2.1 ["h"] rfl⟩

/-! ## Policy-store claims -/

/-- Claim C5: `check_permission(id, action, R)` returns `true` iff some tag
of `R` is in the tag set stored by the policy for `(id, action)` — the tag
set `get_tags` returns, which is empty when no policy is stored. -/
theorem check_permission_iff {Identity : Type} [DecidableEq Identity]
    (st : PolicyStore Identity) (id : Identity) (a : Auth.Action)
    (R : List Tag) :
    st.check_permission id a R = true ↔
      ∃ t, t ∈ R ∧ t ∈ st.get_tags id a := by
  unfold PolicyStore.check_permission
  rw [decide_eq_true_iff]
  constructor
  · intro h
    have hne : st.get_tags id a ∩ R ≠ [] := by
      intro hnil
      rw [hnil] at h
      simp at h
    obtain ⟨t, ht⟩ := List.exists_mem_of_ne_nil _ hne
    rw [List.mem_inter_iff] at ht
    exact ⟨t, ht.2, ht.1⟩
  · intro ⟨t, htR, htP⟩
    have hmem : t ∈ st.get_tags id a ∩ R := List.mem_inter_iff.mpr ⟨htP, htR⟩
    exact List.length_pos.mpr (List.ne_nil_of_mem hmem)

/-- Claim C10: `check_permission` with an empty resource tag set returns
`false` for every store state, identity, and action. -/
theorem check_permission_empty_tags {Identity : Type} [DecidableEq Identity]
    (st : PolicyStore Identity) (id : Identity) (a : Auth.Action) :
    st.check_permission id a [] = false := by
  unfold PolicyStore.check_permission
  simp [List.inter_nil']

/-- Witness for C5 at a concrete policy store: the stored policy for
`("me", Host.Rename)` holds tag `1`, so checking a resource carrying tag `1`
succeeds. -/
theorem check_permission_iff_witness :
    PolicyStore.check_permission
      (⟨[1], [((("me", Auth.Action.host Auth.Host.rename)), [1])]⟩ :
        PolicyStore String)
      "me" (Auth.Action.host Auth.Host.rename) [1] = true :=
  (check_permission_iff
      (⟨[1], [((("me", Auth.Action.host Auth.Host.rename)), [1])]⟩ :
        PolicyStore String)
      "me" (Auth.Action.host Auth.Host.rename) [1]).mpr
    ⟨1, by decide, by decide⟩

/-- Witness for C10 at a concrete policy store. -/
theorem check_permission_empty_tags_witness :
    PolicyStore.check_permission
      (⟨[1], [((("me", Auth.Action.host Auth.Host.rename)), [1])]⟩ :
        PolicyStore String)
      "me" (Auth.Action.host Auth.Host.rename) [] = false :=
  check_permission_empty_tags
    (⟨[1], [((("me", Auth.Action.host Auth.Host.rename)), [1])]⟩ :
      PolicyStore String)
    "me" (Auth.Action.host Auth.Host.rename)

/-! ## Agent claims -/

/-- Claim C3 / code bug: `create_generation` passes the parsed `owner` field
for both `chown` arguments, so for a secret declaring owner `1000` and group
`2000` the staged file gets uid `1000` and gid `1000` — not the declared
group `2000`. -/
theorem create_generation_conflates_owner_and_group :
    Agent.create_generation [] [(dbSecretDef, [1, 2])] =
      .ok [⟨"db", 256, 1000, 1000, [1, 2]⟩] ∧
    dbSecretDef.owner = "1000" ∧ dbSecretDef.group = "2000" ∧
    Agent.parseU32 dbSecretDef.group = some 2000 ∧ (1000 : Nat) ≠ 2000 :=
  ⟨rfl, rfl, rfl, rfl, by decide⟩

/-- The four possible outcomes of `get_secrets`: no manifest (state
untouched, no error); a missing secret (state untouched, error before any
write); staging failure (the staged generation directory removed again,
error); success (generation directory added and symlink flipped to it). -/
theorem get_secrets_spec (fs : Agent.AgentFS)
    (manifest : Option (List (String × Agent.Secret)))
    (fetch : String → Option (List Nat)) :
    (Agent.get_secrets fs manifest fetch = (fs, none)) ∨
    (∃ e, Agent.get_secrets fs manifest fetch = (fs, some e)) ∨
    (∃ e, Agent.get_secrets fs manifest fetch =
      ({ fs with
          dirs := mapRemove fs.dirs (toString (Agent.nextGeneration fs.secretLink)) },
        some e)) ∨
    (∃ files, Agent.get_secrets fs manifest fetch =
      ({ fs with
          dirs := mapInsert fs.dirs (toString (Agent.nextGeneration fs.secretLink)) files,
          secretLink := some (toString (Agent.nextGeneration fs.secretLink)) },
        none)) := by
  unfold Agent.get_secrets
  cases manifest with
  | none => exact Or.inl rfl
  | some defs =>
    dsimp only
    cases hf : Agent.fetchSecrets defs fetch with
    | none => exact Or.inr (Or.inl ⟨.secretNotFound, rfl⟩)
    | some secrets =>
      dsimp only
      cases hcg : Agent.create_generation
          ((mapLookup fs.dirs
            (toString (Agent.nextGeneration fs.secretLink))).getD [])
          secrets with
      | error e => exact Or.inr (Or.inr (Or.inl ⟨e, rfl⟩))
      | ok files => exact Or.inr (Or.inr (Or.inr ⟨files, rfl⟩))

/-- When the manifest is present, every secret is fetched, and staging
succeeds, `get_secrets` installs the new generation and flips the symlink. -/
theorem get_secrets_staged (fs : Agent.AgentFS)
    (manifest : Option (List (String × Agent.Secret)))
    (fetch : String → Option (List Nat))
    (defs : List (String × Agent.Secret))
    (secrets : List (Agent.Secret × List Nat)) (files : List Agent.SecretFile)
    (hman : manifest = some defs)
    (hfetch : Agent.fetchSecrets defs fetch = some secrets)
    (hcg : Agent.create_generation
      ((mapLookup fs.dirs
        (toString (Agent.nextGeneration fs.secretLink))).getD []) secrets =
      .ok files) :
    Agent.get_secrets fs manifest fetch =
      ({ fs with
          dirs := mapInsert fs.dirs (toString (Agent.nextGeneration fs.secretLink)) files,
          secretLink := some (toString (Agent.nextGeneration fs.secretLink)) },
        none) := by
  subst hman
  unfold Agent.get_secrets
  dsimp only
  rw [hfetch]
  dsimp only
  rw [hcg]

/-- Claim C2 as stated fails: starting with no secret symlink, an update
whose artifact declares a secret and whose activation fails ends with the
symlink present — pointing at the deleted staged generation `0` — although
it was absent before the update began. -/
theorem update_failed_leaves_dangling_symlink :
    emptyAgentFS.secretLink = none ∧
    (Agent.update emptyAgentFS failingStagedRun).1.activeVersion ≠
      failingStagedRun.target ∧
    (Agent.update emptyAgentFS failingStagedRun).1.secretLink = some "0" ∧
    mapLookup (Agent.update emptyAgentFS failingStagedRun).1.dirs "0" = none :=
  ⟨rfl, by decide, rfl, rfl⟩

/-- Claim C2 amended: after any failed update (the final active version is
not the requested store path) the active version is unchanged, and the
secret symlink resolves to the pre-update target whenever one existed; when
it was absent before the update it is either still absent or — when a
secret generation was staged — left pointing at the staged generation `0`,
whose directory has been deleted. -/
theorem update_failed_rollback (fs : Agent.AgentFS) (run : Agent.UpdateRun)
    (hfail : (Agent.update fs run).1.activeVersion ≠ run.target) :
    (Agent.update fs run).1.activeVersion = fs.activeVersion ∧
    (∀ t, fs.secretLink = some t →
      (Agent.update fs run).1.secretLink = some t) ∧
    (fs.secretLink = none →
      (Agent.update fs run).1.secretLink = none ∨
      ((Agent.update fs run).1.secretLink =
          some (toString (Agent.nextGeneration none)) ∧
        mapLookup (Agent.update fs run).1.dirs
          (toString (Agent.nextGeneration none)) = none)) := by
  unfold Agent.update at hfail ⊢
  by_cases hdl : run.downloadOk = false
  · rw [if_pos hdl] at hfail ⊢
    exact ⟨rfl, fun t ht => ht, fun h => Or.inl h⟩
  · rw [if_neg hdl] at hfail ⊢
    rcases get_secrets_spec fs run.manifest run.fetch with
      hgs | ⟨e, hgs⟩ | ⟨e, hgs⟩ | ⟨files, hgs⟩ <;>
      rw [hgs] at hfail ⊢ <;> dsimp only at hfail ⊢
    · -- no staging happened, activation ran
      by_cases hact :
          (if run.actSwitched = true then run.target else fs.activeVersion) ≠
            run.target
      · rw [if_pos hact] at hfail ⊢
        cases hswb : run.actSwitched with
        | true => rw [hswb] at hact; simp at hact
        | false =>
          cases hlink : fs.secretLink with
          | none => exact ⟨rfl, fun t ht => Option.noConfusion ht,
              fun _ => Or.inl rfl⟩
          | some t => exact ⟨rfl, fun t' ht' => by cases ht'; rfl,
              fun h => Option.noConfusion h⟩
      · rw [if_neg hact] at hfail ⊢
        cases hlink : fs.secretLink with
        | none => rw [hlink] at hfail; exact absurd hfail hact
        | some t => rw [hlink] at hfail; exact absurd hfail hact
    · -- a secret was missing: nothing was written
      exact ⟨rfl, fun t ht => ht, fun h => Or.inl h⟩
    · -- staging failed: only the staged directory was removed again
      exact ⟨rfl, fun t ht => ht, fun h => Or.inl h⟩
    · -- staging succeeded, activation ran
      by_cases hact :
          (if run.actSwitched = true then run.target else fs.activeVersion) ≠
            run.target
      · rw [if_pos hact] at hfail ⊢
        cases hswb : run.actSwitched with
        | true => rw [hswb] at hact; simp at hact
        | false =>
          cases hlink : fs.secretLink with
          | none =>
            refine ⟨rfl, fun t ht => Option.noConfusion ht, fun _ => Or.inr ?_⟩
            exact ⟨rfl, mapLookup_remove_self _ _⟩
          | some t => exact ⟨rfl, fun t' ht' => by cases ht'; rfl,
              fun h => Option.noConfusion h⟩
      · rw [if_neg hact] at hfail ⊢
        exact absurd hfail hact

/-- Witness for C2 amended at a concrete failing update: the pre-update
symlink target `3` is restored. -/
theorem update_failed_rollback_witness :
    (Agent.update linkedAgentFS failingPlainRun).1.secretLink = some "3" :=
  (update_failed_rollback linkedAgentFS failingPlainRun (by decide)).2.1 "3" rfl

/-- Claim C7 as stated fails: an update with no secrets manifest can succeed
(the requested path becomes active, no error) while leaving both leftover
generation directories in place, because the garbage collection runs only
when the post-staging symlink could be read. -/
theorem update_success_without_manifest_keeps_garbage :
    (Agent.update garbageAgentFS plainRun).2 = none ∧
    (Agent.update garbageAgentFS plainRun).1.activeVersion = plainRun.target ∧
    (Agent.update garbageAgentFS plainRun).1.dirs.map Prod.fst = ["0", "1"] :=
  ⟨rfl, rfl, rfl⟩

/-- Claim C7 amended: after a successful switch in which a secret generation
was staged (the artifact declared a secrets manifest, all secrets were
fetched, and staging succeeded), exactly one directory remains under the
secret root, and its name is the new generation number. -/
theorem update_success_staged_gc (fs : Agent.AgentFS) (run : Agent.UpdateRun)
    (defs : List (String × Agent.Secret))
    (secrets : List (Agent.Secret × List Nat)) (files : List Agent.SecretFile)
    (hdl : run.downloadOk = true)
    (hman : run.manifest = some defs)
    (hfetch : Agent.fetchSecrets defs run.fetch = some secrets)
    (hcg : Agent.create_generation
      ((mapLookup fs.dirs
        (toString (Agent.nextGeneration fs.secretLink))).getD []) secrets =
      .ok files)
    (hsw : run.actSwitched = true) :
    (Agent.update fs run).2 = none ∧
    (Agent.update fs run).1.activeVersion = run.target ∧
    (Agent.update fs run).1.secretLink =
      some (toString (Agent.nextGeneration fs.secretLink)) ∧
    (Agent.update fs run).1.dirs =
      [(toString (Agent.nextGeneration fs.secretLink), files)] := by
  unfold Agent.update
  rw [hdl, if_neg (by simp),
    get_secrets_staged fs run.manifest run.fetch defs secrets files hman hfetch hcg]
  dsimp only
  rw [hsw]
  simp [mapInsert_filter_self]

/-- Witness for C7 amended at a concrete successful update: only the staged
generation directory `0` remains. -/
theorem update_success_staged_gc_witness :
    (Agent.update emptyAgentFS stagedRun).1.dirs =
      [("0", [⟨"db", 256, 1000, 1000, [1, 2]⟩])] :=
  (update_success_staged_gc emptyAgentFS stagedRun [("db", dbSecretDef)]
    [(dbSecretDef, [1, 2])] [⟨"db", 256, 1000, 1000, [1, 2]⟩]
    rfl rfl rfl rfl rfl).2.2.2

end Yeet
